import Mathlib

/-!
# Traffic light message queue and phase toggling (src/src/TrafficLight.cpp)

A shallow embedding of `MessageQueue<T>` and `TrafficLight`.

* The deque `_queue` is a list, front first.
* A blocking call is a step that is not enabled: `receive` on an empty deque and
  `lock` on a held mutex yield `none` and leave the state as it is.
* Threads are interleaved at the granularity of the steps defined here; a schedule is
  a list of actions. `send` and `receive` are one step each (they run under the mutex of
  the queue); the lock, the phase write, the unlock and the send of the toggling loop are
  four steps, since `_mutex` is released before the send.
* Clock readings and the values drawn from `udist` are inputs of the loop iteration; the
  difference of two readings is taken in the signed 64-bit tick count of the clock.
-/

namespace TrafficSim

/-! ## Data model -/

/-- The enumeration `TrafficLightPhase`. -/
inductive TrafficLightPhase where
  | red
  | green
  deriving DecidableEq

open TrafficLightPhase

/-- The class `MessageQueue<T>`: its deque `_queue`, front element first. The mutex and the
condition variable of the class only serialise `send` and `receive`, which are atomic steps
here. -/
structure MessageQueue (T : Type) where
  queue : List T
  deriving DecidableEq

/-- A default-constructed `MessageQueue<T>` (line 46): the deque is empty. -/
def MessageQueue.new {T : Type} : MessageQueue T :=
  { queue := [] }

/-- The method `MessageQueue<T>::send` (lines 25-39): `_queue.clear()` and then
`_queue.push_back(std::move(msg))`. -/
def MessageQueue.send {T : Type} (mq : MessageQueue T) (msg : T) : MessageQueue T :=
  let cleared : MessageQueue T := { mq with queue := [] }
  { cleared with queue := cleared.queue ++ [msg] }

/-- The method `MessageQueue<T>::receive` (lines 7-23). The wait predicate is
`!_queue.empty()`: on an empty deque the caller stays blocked, which is `none` with the deque
untouched; otherwise `_queue.front()` is moved out, `pop_front()` removes it and it is
returned. -/
def MessageQueue.receive {T : Type} (mq : MessageQueue T) : Option T × MessageQueue T :=
  match mq.queue with
  | [] => (none, mq)
  | msg :: rest => (some msg, { mq with queue := rest })

/-- The values returned by `n` successive `receive()` calls, in order, and the queue after
them; a call that finds the deque empty returns nothing. -/
def MessageQueue.receiveN {T : Type} (mq : MessageQueue T) : Nat → List T × MessageQueue T
  | 0 => ([], mq)
  | n + 1 =>
    let first := mq.receive
    let later := first.2.receiveN n
    (first.1.toList ++ later.1, later.2)

/-- An operation on a `MessageQueue<T>`. -/
inductive QueueOp (T : Type) where
  | send (msg : T)
  | receive

/-- One operation applied to the queue (the value a `receive` returns is dropped). -/
def MessageQueue.apply {T : Type} (mq : MessageQueue T) : QueueOp T → MessageQueue T
  | .send msg => mq.send msg
  | .receive => mq.receive.2

/-- A sequence of operations applied from left to right. -/
def MessageQueue.applyAll {T : Type} (mq : MessageQueue T) (ops : List (QueueOp T)) :
    MessageQueue T :=
  ops.foldl MessageQueue.apply mq

/-- The calls `send(v1)`, ..., `send(vn)` in this order, no `receive` in between. -/
def MessageQueue.sendAll {T : Type} (mq : MessageQueue T) (vs : List T) : MessageQueue T :=
  vs.foldl MessageQueue.send mq

/-! ## The traffic light -/

/-- The members of `TrafficLight` that the methods below use: `_currentPhase`, the queue
behind `_tlphasequeue`, and whether `_mutex` is held. -/
structure TrafficLight where
  currentPhase : TrafficLightPhase
  tlphasequeue : MessageQueue TrafficLightPhase
  mutexHeld : Bool
  deriving DecidableEq

/-- The constructor `TrafficLight::TrafficLight` (lines 43-47): phase red, a fresh queue; a
default-constructed mutex is not held. -/
def TrafficLight.new : TrafficLight :=
  { currentPhase := red, tlphasequeue := MessageQueue.new, mutexHeld := false }

/-- The method `TrafficLight::getCurrentPhase` (lines 64-67): `return _currentPhase;`. The
pair is the returned value and the state after the call. -/
def TrafficLight.getCurrentPhase (tl : TrafficLight) : TrafficLightPhase × TrafficLight :=
  (tl.currentPhase, tl)

/-- Line 103, `std::unique_lock<std::mutex> lck(_mutex)`: blocked (`none`) while the mutex is
held, otherwise the mutex becomes held. -/
def TrafficLight.lockPhase (tl : TrafficLight) : Option TrafficLight :=
  if tl.mutexHeld then none else some { tl with mutexHeld := true }

/-- Line 104: `_currentPhase = (_currentPhase == green) ? red : green`. -/
def TrafficLight.flipPhase (tl : TrafficLight) : TrafficLight :=
  { tl with currentPhase := if tl.currentPhase = green then red else green }

/-- Line 105: `lck.unlock()`. -/
def TrafficLight.unlockPhase (tl : TrafficLight) : TrafficLight :=
  { tl with mutexHeld := false }

/-- Line 108: `_tlphasequeue->send(std::move(_currentPhase))`; moving an enumeration value
leaves `_currentPhase` as it is. -/
def TrafficLight.publish (tl : TrafficLight) : TrafficLight :=
  { tl with tlphasequeue := tl.tlphasequeue.send tl.currentPhase }

/-- The argument that line 108 passes to `send` when the toggle of lines 103-108 runs from
`tl`. -/
def TrafficLight.toggleSent (tl : TrafficLight) : Option TrafficLightPhase :=
  tl.lockPhase.map fun held => held.flipPhase.unlockPhase.currentPhase

/-- Lines 103-108 of `cycleThroughPhases` run in sequence by the toggling loop, with no step
of another thread in between: lock, flip, unlock, send. -/
def TrafficLight.toggle (tl : TrafficLight) : Option TrafficLight :=
  tl.lockPhase.map fun held => held.flipPhase.unlockPhase.publish

/-- The toggle of a loop running alone: a toggling loop that is blocked on the mutex makes
no progress. -/
def TrafficLight.toggleStep (tl : TrafficLight) : TrafficLight :=
  (tl.toggle).getD tl

/-- The state after `n` toggles of a single toggling loop. -/
def TrafficLight.toggles (tl : TrafficLight) : Nat → TrafficLight
  | 0 => tl
  | n + 1 => (tl.toggles n).toggleStep

/-- The values passed to `send` by the first `n` toggles from `tl`, oldest first. -/
def TrafficLight.sentValues (tl : TrafficLight) (n : Nat) : List (Option TrafficLightPhase) :=
  (List.range n).map fun i => (tl.toggles i).toggleSent

/-- A call of `receive()` on the queue of the traffic light. -/
def TrafficLight.receive (tl : TrafficLight) : Option TrafficLightPhase × TrafficLight :=
  let r := tl.tlphasequeue.receive
  (r.1, { tl with tlphasequeue := r.2 })

/-! ## waitForGreen -/

/-- The method `TrafficLight::waitForGreen` (lines 49-62) run on the values that its
successive `receive()` calls deliver: `delivered i` is what call number `i` (from 0) returns.
The result is the number of values consumed when the method returns; `none` when `fuel`
loop iterations were not enough. `consumed` counts the calls made so far. -/
def waitForGreenFrom (delivered : Nat → TrafficLightPhase) : Nat → Nat → Option Nat
  | 0, _ => none
  | fuel + 1, consumed =>
    let message := delivered consumed
    if message = green then
      some (consumed + 1)
    else
      waitForGreenFrom delivered fuel (consumed + 1)

/-- The method `waitForGreen` from its first `receive()` call. -/
def waitForGreen (delivered : Nat → TrafficLightPhase) (fuel : Nat) : Option Nat :=
  waitForGreenFrom delivered fuel 0

/-- How one pass through the loop body of `waitForGreen` ends. -/
inductive WaitOutcome where
  | blocked
  | again
  | returned
  deriving DecidableEq

/-- One pass through the loop body of `waitForGreen` (lines 57-60) on the traffic light:
`receive()` blocks on an empty queue; a green message makes the method return, any other
message is dropped and the loop goes on. -/
def TrafficLight.waitForGreenIter (tl : TrafficLight) : WaitOutcome × TrafficLight :=
  match tl.receive with
  | (none, _) => (WaitOutcome.blocked, tl)
  | (some message, after) =>
    if message = green then (WaitOutcome.returned, after) else (WaitOutcome.again, after)

/-! ## Interleavings of the toggling loop with consumers -/

/-- The statement of lines 103-108 that the toggling loop executes next. -/
inductive LoopPc where
  | atLock
  | atFlip
  | atUnlock
  | atSend
  deriving DecidableEq

/-- A scheduled step: the next statement of lines 103-108 in the toggling loop (a pass of
the loop whose test at line 100 fails changes nothing and is not scheduled), a `receive()`
call of some consumer, or one pass of the `waitForGreen` loop of waiter number `i`. -/
inductive Action where
  | loop
  | receive
  | waiter (i : Nat)
  deriving DecidableEq

/-- The traffic light, the position of its single toggling loop, and the waiters whose
`waitForGreen` call has returned, latest first. -/
structure World where
  light : TrafficLight
  pc : LoopPc
  returned : List Nat
  deriving DecidableEq

/-- A newly constructed traffic light whose toggling loop has not toggled yet; no
`waitForGreen` call has returned. -/
def World.init : World :=
  { light := TrafficLight.new, pc := LoopPc.atLock, returned := [] }

/-- The next statement of the toggling loop: line 103 (blocked while the mutex is held),
line 104, line 105, line 108. The mutex is released at line 105, before the send of line
108, so steps of consumers can fall between the phase write and the send. -/
def World.loopStep (w : World) : World :=
  match w.pc with
  | LoopPc.atLock =>
    match w.light.lockPhase with
    | some held => { w with light := held, pc := LoopPc.atFlip }
    | none => w
  | LoopPc.atFlip => { w with light := w.light.flipPhase, pc := LoopPc.atUnlock }
  | LoopPc.atUnlock => { w with light := w.light.unlockPhase, pc := LoopPc.atSend }
  | LoopPc.atSend => { w with light := w.light.publish, pc := LoopPc.atLock }

/-- One pass of the `waitForGreen` loop of waiter `i`. A waiter whose call has returned does
nothing more. -/
def World.waiterStep (w : World) (i : Nat) : World :=
  if i ∈ w.returned then w
  else
    match w.light.waitForGreenIter with
    | (WaitOutcome.returned, after) => { w with light := after, returned := i :: w.returned }
    | (_, after) => { w with light := after }

/-- One scheduled step. -/
def World.step (w : World) : Action → World
  | Action.loop => w.loopStep
  | Action.receive => { w with light := w.light.receive.2 }
  | Action.waiter i => w.waiterStep i

/-- A schedule run from left to right. -/
def World.run (w : World) (schedule : List Action) : World :=
  schedule.foldl World.step w

/-- Whether the phase has been written at line 104 and not yet sent at line 108. -/
def World.sendPending (w : World) : Bool :=
  decide (w.pc = LoopPc.atUnlock) || decide (w.pc = LoopPc.atSend)

/-- The phase that the latest completed send of the toggling loop passed, if there was one:
the current phase, or the opposite one while a send is pending. -/
def World.lastSent (w : World) : TrafficLightPhase :=
  if w.sendPending then w.light.flipPhase.currentPhase else w.light.currentPhase

/-- The channel invariant of a world: the mutex is held exactly between lines 103 and 105 of
the toggling loop, and the buffer is empty or holds exactly the phase sent last. -/
def World.Inv (w : World) : Prop :=
  w.light.mutexHeld = (decide (w.pc = LoopPc.atFlip) || decide (w.pc = LoopPc.atUnlock))
    ∧ (w.light.tlphasequeue.queue = [] ∨ w.light.tlphasequeue.queue = [w.lastSent])

instance (w : World) : Decidable w.Inv := by
  unfold World.Inv
  infer_instance

/-- Whether the step `a` from `w` is the send of line 108 passing green. -/
def World.sendsGreen (w : World) (a : Action) : Bool :=
  decide (a = Action.loop) && decide (w.pc = LoopPc.atSend)
    && decide (w.light.currentPhase = green)

/-- The four steps of one toggle of the toggling loop: lines 103, 104, 105 and 108. -/
def oneToggle : List Action :=
  [Action.loop, Action.loop, Action.loop, Action.loop]

/-- The steps of a toggle up to and including the unlock of line 105: the phase is written,
its send is pending. -/
def flipOnly : List Action :=
  [Action.loop, Action.loop, Action.loop]

/-! ## The toggling loop -/

/-- The values that `udist`, a `std::uniform_int_distribution<long>{4000, 6000}` (line 85),
can return. -/
def CycleDraw : Type :=
  { d : Int // 4000 ≤ d ∧ d ≤ 6000 }

/-- The local variables of `cycleThroughPhases` together with the traffic light:
`lastUpdate` in ticks of the system clock, `cycleDuration` in milliseconds. -/
structure LoopState where
  light : TrafficLight
  lastUpdate : Int
  cycleDuration : Int
  deriving DecidableEq

/-- The value of a signed 64-bit integer computation: wrapped into [-2^63, 2^63). -/
def wrapInt64 (x : Int) : Int :=
  (x + 2 ^ 63) % 2 ^ 64 - 2 ^ 63

/-- Line 99: `duration_cast<milliseconds>(now - lastUpdate).count()`, for a clock with
`ticksPerMs` ticks in a millisecond. The difference of the two time points is taken in the
signed 64-bit tick count of the clock; the cast truncates toward zero. -/
def timeSinceLastUpdate (ticksPerMs : Nat) (now lastUpdate : Int) : Int :=
  (wrapInt64 (now - lastUpdate)).tdiv ticksPerMs

/-- Lines 87-91: the first draw and the start of the stop watch. -/
def cycleThroughPhasesEntry (light : TrafficLight) (now : Int) (draw : CycleDraw) : LoopState :=
  { light := light, lastUpdate := now, cycleDuration := draw.val }

/-- One pass through the body of the loop of `cycleThroughPhases` (lines 96-119). `now` is
the clock reading of line 99, `nowAfter` that of line 115, `draw` the value of `udist(e)` at
line 118. The result is `none` when the pass blocks at line 103. -/
def cycleThroughPhasesIter (ticksPerMs : Nat) (now nowAfter : Int) (draw : CycleDraw)
    (s : LoopState) : Option LoopState :=
  if timeSinceLastUpdate ticksPerMs now s.lastUpdate ≥ s.cycleDuration then
    s.light.toggle.map fun toggled =>
      { light := toggled, lastUpdate := nowAfter, cycleDuration := draw.val }
  else
    some s

/-! ## The accessor as the specification words it -/

/-- The accessor as the specification describes it ("returns the current phase under the
phase lock"): take `_mutex`, read `_currentPhase`, release. Blocked (`none`) while the mutex
is held. -/
def TrafficLight.getCurrentPhaseUnderLock (tl : TrafficLight) :
    Option (TrafficLightPhase × TrafficLight) :=
  tl.lockPhase.map fun held => (held.currentPhase, held.unlockPhase)

/-! ## The message queue -/

theorem send_queue {T : Type} (mq : MessageQueue T) (v : T) : (mq.send v).queue = [v] := rfl

theorem sendAll_append_one {T : Type} (mq : MessageQueue T) (vs : List T) (v : T) :
    (mq.sendAll (vs ++ [v])).queue = [v] := by
  simp [MessageQueue.sendAll, List.foldl_append, send_queue]

theorem sendAll_queue {T : Type} (mq : MessageQueue T) (vs : List T) (hne : vs ≠ []) :
    (mq.sendAll vs).queue = [vs.getLast hne] := by
  obtain ⟨front, last, rfl⟩ : ∃ front last, vs = front ++ [last] :=
    ⟨vs.dropLast, vs.getLast hne, (List.dropLast_append_getLast hne).symm⟩
  rw [sendAll_append_one]
  simp

theorem receive_of_queue {T : Type} (mq : MessageQueue T) (v : T) (rest : List T)
    (h : mq.queue = v :: rest) : mq.receive = (some v, { queue := rest }) := by
  cases mq with
  | mk q =>
    simp only at h
    subst h
    rfl

theorem receive_of_empty {T : Type} (mq : MessageQueue T) (h : mq.queue = []) :
    mq.receive = (none, mq) := by
  cases mq with
  | mk q =>
    simp only at h
    subst h
    rfl

theorem receive_length_le {T : Type} (mq : MessageQueue T) :
    mq.receive.2.queue.length ≤ mq.queue.length := by
  cases mq with
  | mk q =>
    cases q with
    | nil => simp [MessageQueue.receive]
    | cons v rest => simp [MessageQueue.receive]

theorem apply_length_le_one {T : Type} (mq : MessageQueue T) (op : QueueOp T)
    (h : mq.queue.length ≤ 1) : (mq.apply op).queue.length ≤ 1 := by
  cases op with
  | send msg => simp [MessageQueue.apply, send_queue]
  | receive => exact le_trans (receive_length_le mq) h

theorem applyAll_length_le_one {T : Type} (ops : List (QueueOp T)) :
    ∀ mq : MessageQueue T, mq.queue.length ≤ 1 → (mq.applyAll ops).queue.length ≤ 1 := by
  induction ops with
  | nil => intro mq h; exact h
  | cons op rest ih =>
    intro mq h
    exact ih (mq.apply op) (apply_length_le_one mq op h)

/-- C1: after `send(v1)`, ..., `send(vn)` with `n ≥ 1` and no `receive` in between, on any
initial buffer, one `receive()` returns exactly `vn` and leaves the buffer empty, and a
second `receive()` returns no value and leaves the buffer empty. -/
theorem C1_overwrite_law {T : Type} (mq : MessageQueue T) (vs : List T) (hne : vs ≠ []) :
    (mq.sendAll vs).receive = (some (vs.getLast hne), { queue := [] })
      ∧ (mq.sendAll vs).receive.2.receive = (none, { queue := [] }) := by
  have h1 : (mq.sendAll vs).receive = (some (vs.getLast hne), { queue := [] }) :=
    receive_of_queue _ _ _ (sendAll_queue mq vs hne)
  refine ⟨h1, ?_⟩
  rw [h1]
  rfl

/-- C1 at `send(red); send(green)` on a fresh queue: the first `receive()` returns green,
the second returns nothing. -/
theorem C1_overwrite_law_witness :
    ((MessageQueue.new : MessageQueue TrafficLightPhase).sendAll [red, green]).receive
        = (some green, { queue := [] })
      ∧ ((MessageQueue.new : MessageQueue TrafficLightPhase).sendAll
          [red, green]).receive.2.receive = (none, { queue := [] }) :=
  C1_overwrite_law MessageQueue.new [red, green] (by simp)

/-- C2: whatever the buffer holds, after `send(v)` it is exactly `[v]`; and every state
reached from an empty buffer by `send` and `receive` operations holds at most one
element. -/
theorem C2_single_slot {T : Type} :
    (∀ (mq : MessageQueue T) (v : T), (mq.send v).queue = [v])
      ∧ ∀ ops : List (QueueOp T),
          ((MessageQueue.new : MessageQueue T).applyAll ops).queue.length ≤ 1 :=
  ⟨fun mq v => send_queue mq v,
    fun ops => applyAll_length_le_one ops MessageQueue.new (by simp [MessageQueue.new])⟩

theorem receiveN_spec {T : Type} (n : Nat) :
    ∀ mq : MessageQueue T,
      (mq.receiveN n).1 = mq.queue.take n ∧ (mq.receiveN n).2.queue = mq.queue.drop n := by
  induction n with
  | zero => intro mq; simp [MessageQueue.receiveN]
  | succ n ih =>
    intro mq
    cases mq with
    | mk q =>
      cases q with
      | nil =>
        have h := ih ({ queue := [] } : MessageQueue T)
        simp only [MessageQueue.receiveN, MessageQueue.receive]
        simp [h.1, h.2]
      | cons v rest =>
        have h := ih ({ queue := rest } : MessageQueue T)
        simp only [MessageQueue.receiveN, MessageQueue.receive]
        simp [h.1, h.2]

/-- C3: `receive()` yields a value exactly when the buffer is non-empty; on an empty buffer
it returns nothing and leaves the buffer as it was; on a buffer `v :: rest` it returns `v`
and leaves exactly `rest`; `n` successive calls return the first `n` buffered values, each
once, and leave the others; on a fresh queue it returns nothing, and after `send(v)` it
returns `v`. -/
theorem C3_receive {T : Type} :
    (∀ mq : MessageQueue T, mq.receive.1.isSome = true ↔ mq.queue ≠ [])
      ∧ (∀ mq : MessageQueue T, mq.queue = [] → mq.receive = (none, mq))
      ∧ (∀ (mq : MessageQueue T) (v : T) (rest : List T), mq.queue = v :: rest →
          mq.receive = (some v, { queue := rest }))
      ∧ (∀ (mq : MessageQueue T) (n : Nat),
          (mq.receiveN n).1 = mq.queue.take n ∧ (mq.receiveN n).2.queue = mq.queue.drop n)
      ∧ (MessageQueue.new : MessageQueue T).receive = (none, MessageQueue.new)
      ∧ ∀ v : T, ((MessageQueue.new : MessageQueue T).send v).receive
          = (some v, MessageQueue.new) := by
  refine ⟨?_, fun mq h => receive_of_empty mq h, fun mq v rest h => receive_of_queue mq v rest h,
    fun mq n => receiveN_spec n mq, rfl, fun v => rfl⟩
  intro mq
  cases mq with
  | mk q =>
    cases q with
    | nil => simp [MessageQueue.receive]
    | cons v rest => simp [MessageQueue.receive]

/-! ## waitForGreen on a delivered sequence -/

theorem waitForGreenFrom_first_green (delivered : Nat → TrafficLightPhase) (k : Nat)
    (hk : delivered k = green) :
    ∀ (fuel c : Nat), c ≤ k → k - c < fuel →
      (∀ j, c ≤ j → j < k → delivered j ≠ green) →
      waitForGreenFrom delivered fuel c = some (k + 1) := by
  intro fuel
  induction fuel with
  | zero => intro c _ hf _; omega
  | succ fuel ih =>
    intro c hck hf hred
    rcases Nat.eq_or_lt_of_le hck with heq | hlt
    · subst heq
      simp [waitForGreenFrom, hk]
    · have hc : delivered c ≠ green := hred c le_rfl hlt
      simp only [waitForGreenFrom, hc, if_false]
      exact ih (c + 1) hlt (by omega) (fun j hj hjk => hred j (by omega) hjk)

theorem waitForGreenFrom_some (delivered : Nat → TrafficLightPhase) :
    ∀ (fuel c n : Nat), waitForGreenFrom delivered fuel c = some n →
      c < n ∧ delivered (n - 1) = green ∧ ∀ j, c ≤ j → j < n - 1 → delivered j ≠ green := by
  intro fuel
  induction fuel with
  | zero => intro c n h; simp [waitForGreenFrom] at h
  | succ fuel ih =>
    intro c n h
    by_cases hc : delivered c = green
    · simp only [waitForGreenFrom, hc, if_true, Option.some.injEq] at h
      subst h
      exact ⟨by omega, by simpa using hc, fun j h1 h2 => by omega⟩
    · simp only [waitForGreenFrom, hc, if_false] at h
      obtain ⟨h1, h2, h3⟩ := ih (c + 1) n h
      refine ⟨by omega, h2, fun j hj hjn => ?_⟩
      rcases Nat.eq_or_lt_of_le hj with heq | hlt
      · subst heq; exact hc
      · exact h3 j hlt hjn

theorem phase_eq_red_of_ne_green (p : TrafficLightPhase) (h : p ≠ green) : p = red := by
  cases p with
  | red => rfl
  | green => exact absurd rfl h

/-- C4: on every sequence of delivered values, `waitForGreen` returns after consuming
exactly the values up to and including the first green (any fuel beyond its position is
enough); whenever it returns, the last value it consumed is green and all earlier ones are
red; and on a sequence with no green it does not return, whatever the fuel. -/
theorem C4_waitForGreen (delivered : Nat → TrafficLightPhase) :
    (∀ k, delivered k = green → (∀ j, j < k → delivered j ≠ green) →
        ∀ fuel, k < fuel → waitForGreen delivered fuel = some (k + 1))
      ∧ (∀ fuel n, waitForGreen delivered fuel = some n →
          0 < n ∧ delivered (n - 1) = green ∧ ∀ j, j < n - 1 → delivered j = red)
      ∧ ((∀ i, delivered i ≠ green) → ∀ fuel, waitForGreen delivered fuel = none) := by
  refine ⟨?_, ?_, ?_⟩
  · intro k hk hred fuel hf
    exact waitForGreenFrom_first_green delivered k hk fuel 0 (Nat.zero_le k) (by omega)
      (fun j _ hjk => hred j hjk)
  · intro fuel n h
    obtain ⟨h1, h2, h3⟩ := waitForGreenFrom_some delivered fuel 0 n h
    exact ⟨h1, h2, fun j hj => phase_eq_red_of_ne_green _ (h3 j (Nat.zero_le j) hj)⟩
  · intro hno fuel
    cases hres : waitForGreen delivered fuel with
    | none => rfl
    | some n => exact absurd (waitForGreenFrom_some delivered fuel 0 n hres).2.1 (hno (n - 1))

/-! ## The toggle -/

theorem toggle_of_free (tl : TrafficLight) (h : tl.mutexHeld = false) :
    tl.toggle = some
      { currentPhase := if tl.currentPhase = green then red else green
        tlphasequeue := { queue := [if tl.currentPhase = green then red else green] }
        mutexHeld := false } := by
  cases tl with
  | mk p q m =>
    simp only at h
    subst h
    rfl

theorem toggleSent_of_free (tl : TrafficLight) (h : tl.mutexHeld = false) :
    tl.toggleSent = some (if tl.currentPhase = green then red else green) := by
  cases tl with
  | mk p q m =>
    simp only at h
    subst h
    rfl

theorem toggleStep_of_free (tl : TrafficLight) (h : tl.mutexHeld = false) :
    tl.toggleStep =
      { currentPhase := if tl.currentPhase = green then red else green
        tlphasequeue := { queue := [if tl.currentPhase = green then red else green] }
        mutexHeld := false } := by
  simp [TrafficLight.toggleStep, toggle_of_free tl h]

theorem toggles_free (tl : TrafficLight) (h : tl.mutexHeld = false) :
    ∀ n, (tl.toggles n).mutexHeld = false := by
  intro n
  induction n with
  | zero => exact h
  | succ n ih => simp [TrafficLight.toggles, toggleStep_of_free _ ih]

theorem toggles_new_phase :
    ∀ n, (TrafficLight.new.toggles n).currentPhase = if n % 2 = 1 then green else red := by
  intro n
  induction n with
  | zero => rfl
  | succ n ih =>
    have hfree := toggles_free TrafficLight.new rfl n
    simp only [TrafficLight.toggles, toggleStep_of_free _ hfree, ih]
    rcases Nat.mod_two_eq_zero_or_one n with h | h
    · have h2 : (n + 1) % 2 = 1 := by omega
      simp [h, h2]
    · have h2 : (n + 1) % 2 = 0 := by omega
      simp [h, h2]

/-- C6: a new traffic light is red with an empty channel; a toggle turns red into green and
green into red and leaves exactly the new phase in the channel; after `n` toggles of a
single loop the phase is green exactly when `n` is odd; two toggles in a row restore the
phase; and the values sent are green, red, green, ... starting with green. -/
theorem C6_toggle_machine :
    (TrafficLight.new.currentPhase = red ∧ TrafficLight.new.tlphasequeue.queue = [])
      ∧ (∀ q, TrafficLight.toggle { currentPhase := red, tlphasequeue := q, mutexHeld := false }
          = some { currentPhase := green, tlphasequeue := { queue := [green] },
                   mutexHeld := false })
      ∧ (∀ q, TrafficLight.toggle
            { currentPhase := green, tlphasequeue := q, mutexHeld := false }
          = some { currentPhase := red, tlphasequeue := { queue := [red] },
                   mutexHeld := false })
      ∧ (∀ n, (TrafficLight.new.toggles n).currentPhase = green ↔ n % 2 = 1)
      ∧ (∀ p q, (TrafficLight.toggles
            { currentPhase := p, tlphasequeue := q, mutexHeld := false } 2).currentPhase = p)
      ∧ (∀ n, (TrafficLight.new.toggles (n + 2)).currentPhase
            = (TrafficLight.new.toggles n).currentPhase)
      ∧ ∀ n, TrafficLight.new.sentValues n
          = (List.range n).map fun i => some (if i % 2 = 0 then green else red) := by
  refine ⟨⟨rfl, rfl⟩, fun q => rfl, fun q => rfl, ?_, ?_, ?_, ?_⟩
  · intro n
    rw [toggles_new_phase]
    by_cases h : n % 2 = 1 <;> simp [h]
  · intro p q
    cases p <;> rfl
  · intro n
    rw [toggles_new_phase, toggles_new_phase]
    have h2 : (n + 2) % 2 = n % 2 := by omega
    rw [h2]
  · intro n
    unfold TrafficLight.sentValues
    apply List.map_congr_left
    intro i _
    rw [toggleSent_of_free _ (toggles_free TrafficLight.new rfl i), toggles_new_phase]
    rcases Nat.mod_two_eq_zero_or_one i with h | h <;> simp [h]

/-! ## Interleavings: the channel invariant -/

theorem run_append_one (w : World) (schedule : List Action) (a : Action) :
    w.run (schedule ++ [a]) = (w.run schedule).step a := by
  simp [World.run, List.foldl_append]

theorem inv_init : World.init.Inv := ⟨rfl, Or.inl rfl⟩

theorem inv_loopStep (w : World) (h : w.Inv) : w.loopStep.Inv := by
  obtain ⟨⟨p, ⟨q⟩, m⟩, pc, ret⟩ := w
  obtain ⟨hm, hq⟩ := h
  cases pc <;> cases p <;> cases m <;>
    simp_all [World.loopStep, World.Inv, World.lastSent, World.sendPending,
      TrafficLight.lockPhase, TrafficLight.flipPhase, TrafficLight.unlockPhase,
      TrafficLight.publish, MessageQueue.send]

theorem inv_queue_length (w : World) (h : w.Inv) : w.light.tlphasequeue.queue.length ≤ 1 := by
  rcases h.2 with hq | hq
  · rw [hq]; simp
  · have hlen := congrArg List.length hq
    simp only [List.length_singleton] at hlen
    omega

theorem inv_receive (w : World) (h : w.Inv) :
    World.Inv { w with light := w.light.receive.2 } := by
  have hlen := inv_queue_length w h
  obtain ⟨⟨p, ⟨q⟩, m⟩, pc, ret⟩ := w
  refine ⟨h.1, Or.inl ?_⟩
  cases q with
  | nil => rfl
  | cons v rest =>
    cases rest with
    | nil => rfl
    | cons v2 more => simp at hlen

theorem inv_waiterStep (w : World) (i : Nat) (h : w.Inv) : (w.waiterStep i).Inv := by
  have hlen := inv_queue_length w h
  obtain ⟨⟨p, ⟨q⟩, m⟩, pc, ret⟩ := w
  by_cases hi : i ∈ ret
  · simp only [World.waiterStep, hi, if_true]
    exact h
  · simp only [World.waiterStep, hi, if_false]
    cases q with
    | nil => exact ⟨h.1, Or.inl rfl⟩
    | cons v rest =>
      cases rest with
      | nil => cases v <;> exact ⟨h.1, Or.inl rfl⟩
      | cons v2 more => simp at hlen

theorem inv_step (w : World) (a : Action) (h : w.Inv) : (w.step a).Inv := by
  cases a with
  | loop => exact inv_loopStep w h
  | receive => exact inv_receive w h
  | waiter i => exact inv_waiterStep w i h

theorem inv_run (schedule : List Action) : ∀ w : World, w.Inv → (w.run schedule).Inv := by
  induction schedule with
  | nil => intro w h; exact h
  | cons a rest ih => intro w h; exact ih (w.step a) (inv_step w a h)

/-- C10 as stated fails: after a complete toggle to green the loop locks, writes red and
unlocks; before its send of line 108 the phase is red while the buffer holds the green of
the earlier toggle, and a `receive()` there returns that green. -/
theorem C10_counterexample :
    (World.init.run (oneToggle ++ flipOnly)).light.currentPhase = red
      ∧ (World.init.run (oneToggle ++ flipOnly)).light.tlphasequeue.queue = [green]
      ∧ (World.init.run (oneToggle ++ flipOnly)).light.receive.1 = some green := by
  decide

/-- C10 amended: in every state reached from a newly constructed traffic light by steps of
a single toggling loop and `receive()` calls (direct ones or those of `waitForGreen`), in
any order, the buffer is empty or holds exactly one element. While no send is pending (the
loop is not between its phase write of line 104 and its send of line 108) that element is
the current phase, so no green is buffered while the phase is red; while a send is pending
the element is the phase before the write. -/
theorem C10_no_stale_notification (schedule : List Action) :
    (World.init.run schedule).light.tlphasequeue.queue.length ≤ 1
      ∧ ((World.init.run schedule).sendPending = false →
          (World.init.run schedule).light.tlphasequeue.queue = []
            ∨ (World.init.run schedule).light.tlphasequeue.queue
                = [(World.init.run schedule).light.currentPhase])
      ∧ ((World.init.run schedule).sendPending = false →
          (World.init.run schedule).light.currentPhase = red →
          green ∉ (World.init.run schedule).light.tlphasequeue.queue)
      ∧ ((World.init.run schedule).sendPending = true →
          (World.init.run schedule).light.tlphasequeue.queue = []
            ∨ (World.init.run schedule).light.tlphasequeue.queue
                = [if (World.init.run schedule).light.currentPhase = green
                    then red else green]) := by
  have h := (inv_run schedule World.init inv_init).2
  refine ⟨?_, ?_, ?_, ?_⟩
  · rcases h with h | h <;> rw [h] <;> simp
  · intro hp
    simpa [World.lastSent, hp] using h
  · intro hp hred
    rcases h with h | h
    · rw [h]; simp
    · rw [h]
      simp [World.lastSent, hp, hred]
  · intro hp
    simpa [World.lastSent, hp, TrafficLight.flipPhase] using h

/-! ## Interleavings: one green notification releases one waiter -/

theorem step_green_or_safe (v : World) (a : Action) (i : Nat) (hi : i ∉ v.returned)
    (hq : green ∉ v.light.tlphasequeue.queue) :
    v.sendsGreen a = true
      ∨ (i ∉ (v.step a).returned ∧ green ∉ (v.step a).light.tlphasequeue.queue) := by
  obtain ⟨⟨p, ⟨q⟩, m⟩, pc, ret⟩ := v
  simp only at hi hq
  cases a with
  | loop =>
    cases pc
    · right
      cases m
      · exact ⟨hi, hq⟩
      · exact ⟨hi, hq⟩
    · exact Or.inr ⟨hi, hq⟩
    · exact Or.inr ⟨hi, hq⟩
    · cases p
      · refine Or.inr ⟨hi, ?_⟩
        simp [World.step, World.loopStep, TrafficLight.publish, MessageQueue.send]
      · exact Or.inl rfl
  | receive =>
    cases q with
    | nil => exact Or.inr ⟨hi, hq⟩
    | cons x rest =>
      refine Or.inr ⟨hi, ?_⟩
      simp only [World.step, TrafficLight.receive, MessageQueue.receive]
      exact fun hmem => hq (List.mem_cons_of_mem _ hmem)
  | waiter j =>
    right
    by_cases hj : j ∈ ret
    · simp only [World.step, World.waiterStep, hj, if_true]
      exact ⟨hi, hq⟩
    · cases q with
      | nil =>
        simp only [World.step, World.waiterStep, hj, if_false,
          TrafficLight.waitForGreenIter, TrafficLight.receive, MessageQueue.receive]
        exact ⟨hi, hq⟩
      | cons x rest =>
        cases x
        · simp only [World.step, World.waiterStep, hj, if_false,
            TrafficLight.waitForGreenIter, TrafficLight.receive, MessageQueue.receive]
          exact ⟨hi, fun hmem => hq (List.mem_cons_of_mem _ hmem)⟩
        · exact absurd (List.mem_cons_self _ _) hq

theorem green_send_or_safe (w : World) (i : Nat) (hi : i ∉ w.returned)
    (hq : green ∉ w.light.tlphasequeue.queue) (schedule : List Action) :
    (∃ before a after, schedule = before ++ a :: after
        ∧ (w.run before).sendsGreen a = true ∧ i ∉ (w.run before).returned)
      ∨ (i ∉ (w.run schedule).returned
          ∧ green ∉ (w.run schedule).light.tlphasequeue.queue) := by
  induction schedule using List.reverseRecOn with
  | nil => exact Or.inr ⟨hi, hq⟩
  | append_singleton l a ih =>
    rcases ih with ⟨before, b, after, hl, hsent, hnot⟩ | ⟨hnot, hsafe⟩
    · left
      refine ⟨before, b, after ++ [a], ?_, hsent, hnot⟩
      rw [hl]
      simp
    · rcases step_green_or_safe (w.run l) a i hnot hsafe with hsent | hstay
      · left
        exact ⟨l, a, [], rfl, hsent, hnot⟩
      · right
        rw [run_append_one]
        exact hstay

theorem green_send_before_return (w : World) (i : Nat) (hi : i ∉ w.returned)
    (hq : green ∉ w.light.tlphasequeue.queue) (schedule : List Action)
    (hret : i ∈ (w.run schedule).returned) :
    ∃ before a after, schedule = before ++ a :: after
      ∧ (w.run before).sendsGreen a = true ∧ i ∉ (w.run before).returned := by
  rcases green_send_or_safe w i hi hq schedule with h | ⟨hnot, _⟩
  · exact h
  · exact absurd hret hnot

theorem waiter_takes_buffered_green (w : World) (i : Nat) (hinv : w.Inv)
    (hi : i ∉ w.returned) (hq : green ∈ w.light.tlphasequeue.queue) :
    i ∈ (w.waiterStep i).returned := by
  have hlen := inv_queue_length w hinv
  obtain ⟨⟨p, ⟨q⟩, m⟩, pc, ret⟩ := w
  simp only at hi hq hlen
  cases q with
  | nil => simp at hq
  | cons v rest =>
    cases rest with
    | nil =>
      cases v
      · simp at hq
      · simp [World.waiterStep, hi, TrafficLight.waitForGreenIter, TrafficLight.receive,
          MessageQueue.receive]
    | cons v2 more => simp at hlen

/-- C5 as stated fails: after the first complete toggle of a new traffic light the phase is
green and the green of that toggle is still buffered; a `waitForGreen` call issued then
returns in its first pass through the loop, in a schedule in which the toggling loop makes
no step at all. -/
theorem C5_counterexample :
    (World.init.run oneToggle).light.currentPhase = green
      ∧ 0 ∉ (World.init.run oneToggle).returned
      ∧ 0 ∈ ((World.init.run oneToggle).run [Action.waiter 0]).returned
      ∧ ¬ ∃ before after, [Action.waiter 0] = before ++ Action.loop :: after := by
  refine ⟨by decide, by decide, by decide, ?_⟩
  rintro ⟨before, after, h⟩
  cases before with
  | nil => simp at h
  | cons b rest =>
    cases rest with
    | nil => simp at h
    | cons c more => simp at h

/-- C5 amended: in a reachable state whose phase is green, for a `waitForGreen` call that
has not returned: if no green is buffered, the call returns only after a step that sends
green (line 108) while the call is still waiting, the phase write of that send being either
later than the call or already done with its send pending; if green is buffered, the next
pass of the call takes it and returns. While a send is pending in such a state no green is
buffered. -/
theorem C5_waitForGreen_transitions (pre : List Action) (i : Nat)
    (hgreen : (World.init.run pre).light.currentPhase = green)
    (hi : i ∉ (World.init.run pre).returned) :
    (green ∉ (World.init.run pre).light.tlphasequeue.queue →
        ∀ schedule, i ∈ ((World.init.run pre).run schedule).returned →
          ∃ before a after, schedule = before ++ a :: after
            ∧ ((World.init.run pre).run before).sendsGreen a = true
            ∧ i ∉ ((World.init.run pre).run before).returned)
      ∧ (green ∈ (World.init.run pre).light.tlphasequeue.queue →
          i ∈ ((World.init.run pre).step (Action.waiter i)).returned)
      ∧ ((World.init.run pre).sendPending = true →
          green ∉ (World.init.run pre).light.tlphasequeue.queue) := by
  have hinv := inv_run pre World.init inv_init
  refine ⟨?_, ?_, ?_⟩
  · intro hno schedule hret
    exact green_send_before_return (World.init.run pre) i hi hno schedule hret
  · intro hmem
    exact waiter_takes_buffered_green (World.init.run pre) i hinv hi hmem
  · intro hp
    rcases hinv.2 with h | h
    · rw [h]; simp
    · rw [h]
      simp [World.lastSent, hp, TrafficLight.flipPhase, hgreen]

/-- C5 amended, at concrete inputs. After a toggle and a `receive()` the phase is green and
the buffer empty; a call that has returned after two further toggles was preceded by a step
sending green. After the lock, write and unlock of the first toggle the phase is green with
the send pending and nothing buffered. After a complete toggle the green is buffered and the
call returns at its first pass. -/
theorem C5_waitForGreen_transitions_witness :
    (∃ before a after, oneToggle ++ oneToggle ++ [Action.waiter 0] = before ++ a :: after
        ∧ ((World.init.run (oneToggle ++ [Action.receive])).run before).sendsGreen a = true
        ∧ 0 ∉ ((World.init.run (oneToggle ++ [Action.receive])).run before).returned)
      ∧ green ∉ (World.init.run flipOnly).light.tlphasequeue.queue
      ∧ 0 ∈ ((World.init.run oneToggle).step (Action.waiter 0)).returned :=
  ⟨(C5_waitForGreen_transitions (oneToggle ++ [Action.receive]) 0 (by decide)
        (by decide)).1 (by decide) (oneToggle ++ oneToggle ++ [Action.waiter 0]) (by decide),
    (C5_waitForGreen_transitions flipOnly 0 (by decide) (by decide)).2.2 (by decide),
    (C5_waitForGreen_transitions oneToggle 0 (by decide) (by decide)).2.1 (by decide)⟩

/-! ## Three waiters -/

/-- C8 fails on the code: `getCurrentPhase` returns `_currentPhase` without touching the
mutex. It changes no state and returns red or green, but with the mutex held by the toggling
loop (after line 103, and still after the write of line 104) the call goes through and
returns, where an accessor that takes the lock would be blocked. -/
theorem C8_getCurrentPhase_takes_no_lock :
    (∀ tl : TrafficLight, tl.getCurrentPhase = (tl.currentPhase, tl))
      ∧ (∀ tl : TrafficLight, tl.getCurrentPhase.1 = red ∨ tl.getCurrentPhase.1 = green)
      ∧ TrafficLight.new.lockPhase
          = some { currentPhase := red, tlphasequeue := MessageQueue.new, mutexHeld := true }
      ∧ TrafficLight.getCurrentPhase
            { currentPhase := red, tlphasequeue := MessageQueue.new, mutexHeld := true }
          = (red, { currentPhase := red, tlphasequeue := MessageQueue.new, mutexHeld := true })
      ∧ TrafficLight.getCurrentPhase (TrafficLight.flipPhase
            { currentPhase := red, tlphasequeue := MessageQueue.new, mutexHeld := true })
          = (green,
              { currentPhase := green, tlphasequeue := MessageQueue.new, mutexHeld := true })
      ∧ TrafficLight.getCurrentPhaseUnderLock
            { currentPhase := red, tlphasequeue := MessageQueue.new, mutexHeld := true }
          = none
      ∧ ∀ tl : TrafficLight, tl.mutexHeld = true →
          tl.getCurrentPhaseUnderLock = none ∧ tl.getCurrentPhase = (tl.currentPhase, tl) := by
  refine ⟨fun tl => rfl, ?_, rfl, rfl, rfl, rfl, ?_⟩
  · intro tl
    cases h : tl.currentPhase
    · exact Or.inl h
    · exact Or.inr h
  · intro tl h
    refine ⟨?_, rfl⟩
    simp [TrafficLight.getCurrentPhaseUnderLock, TrafficLight.lockPhase, h]

/-! ## One pass of the toggling loop -/

theorem wrapInt64_of_bounds (x : Int) (hlo : -(2 ^ 63) ≤ x) (hhi : x < 2 ^ 63) :
    wrapInt64 x = x := by
  unfold wrapInt64
  omega

/-- C9: one pass of the toggling loop from phase `p`, buffer `q`, cycle duration `d`, the
mutex free, with measured elapsed time `e = timeSinceLastUpdate ticksPerMs now lastUpdate`.
If `e ≥ d` the phase becomes the opposite of `p`, the buffer exactly that new phase, the
reference point the clock reading taken after the send and the cycle duration the new draw,
which lies in [4000, 6000]; if `e < d` nothing changes; for `d` in [4000, 6000] nothing
changes while `e < 4000`. The measured `e` is the truncated quotient of the tick difference
while that difference fits the signed 64-bit count of the clock. -/
theorem C9_loop_iteration (ticksPerMs : Nat) (now nowAfter lastUpdate d : Int)
    (draw : CycleDraw) (p : TrafficLightPhase) (q : List TrafficLightPhase) :
    (d ≤ timeSinceLastUpdate ticksPerMs now lastUpdate →
        cycleThroughPhasesIter ticksPerMs now nowAfter draw
            { light := { currentPhase := p, tlphasequeue := { queue := q },
                         mutexHeld := false },
              lastUpdate := lastUpdate, cycleDuration := d }
          = some
            { light := { currentPhase := if p = green then red else green,
                         tlphasequeue := { queue := [if p = green then red else green] },
                         mutexHeld := false },
              lastUpdate := nowAfter, cycleDuration := draw.val })
      ∧ (4000 ≤ draw.val ∧ draw.val ≤ 6000)
      ∧ (timeSinceLastUpdate ticksPerMs now lastUpdate < d →
          cycleThroughPhasesIter ticksPerMs now nowAfter draw
              { light := { currentPhase := p, tlphasequeue := { queue := q },
                           mutexHeld := false },
                lastUpdate := lastUpdate, cycleDuration := d }
            = some
              { light := { currentPhase := p, tlphasequeue := { queue := q },
                           mutexHeld := false },
                lastUpdate := lastUpdate, cycleDuration := d })
      ∧ (4000 ≤ d → d ≤ 6000 → timeSinceLastUpdate ticksPerMs now lastUpdate < 4000 →
          cycleThroughPhasesIter ticksPerMs now nowAfter draw
              { light := { currentPhase := p, tlphasequeue := { queue := q },
                           mutexHeld := false },
                lastUpdate := lastUpdate, cycleDuration := d }
            = some
              { light := { currentPhase := p, tlphasequeue := { queue := q },
                           mutexHeld := false },
                lastUpdate := lastUpdate, cycleDuration := d })
      ∧ (-(2 ^ 63) ≤ now - lastUpdate → now - lastUpdate < 2 ^ 63 →
          timeSinceLastUpdate ticksPerMs now lastUpdate
            = (now - lastUpdate).tdiv ticksPerMs)
      ∧ timeSinceLastUpdate 1000000 (2 ^ 62) (-(2 ^ 62)) = -9223372036854 := by
  have hlt : ∀ bound : Int, timeSinceLastUpdate ticksPerMs now lastUpdate < bound →
      bound ≤ d →
      cycleThroughPhasesIter ticksPerMs now nowAfter draw
          { light := { currentPhase := p, tlphasequeue := { queue := q },
                       mutexHeld := false },
            lastUpdate := lastUpdate, cycleDuration := d }
        = some
          { light := { currentPhase := p, tlphasequeue := { queue := q },
                       mutexHeld := false },
            lastUpdate := lastUpdate, cycleDuration := d } := by
    intro bound h hb
    have hnot : ¬ timeSinceLastUpdate ticksPerMs now lastUpdate ≥ d := by omega
    simp only [cycleThroughPhasesIter, hnot, if_false]
  refine ⟨?_, draw.property, fun h => hlt d h le_rfl, fun h4 _ h => hlt 4000 h h4, ?_, ?_⟩
  · intro h
    have hge : timeSinceLastUpdate ticksPerMs now lastUpdate ≥ d := h
    simp only [cycleThroughPhasesIter, hge, if_true]
    rfl
  · intro hlo hhi
    unfold timeSinceLastUpdate
    rw [wrapInt64_of_bounds _ hlo hhi]
  · decide

end TrafficSim
